import Mathlib

/-!
Shallow embedding of `src/rnn_build.py`: forward and backward propagation for
a simple recurrent cell and an LSTM cell over a time-ordered sequence.

Conventions of the embedding:
* numpy float arrays become real matrices `Matrix (Fin n) (Fin m) ℝ`; the
  statically fixed dimensions (hidden `na`, input `nx`, output `ny`, batch `m`)
  are type indices, while the time axis — the one dimension the source reads
  dynamically from `da.shape` / `len(caches)` — is a `List` of time slices.
* the `(n_a + n_x)`-row concatenation used by the LSTM is indexed by
  `Fin na ⊕ Fin nx`: numpy rows `[0, n_a)` are `Sum.inl`, rows `[n_a, n_a+n_x)`
  are `Sum.inr`, and the column splits `W[:, :n_a]` / `W[:, n_a:]` become
  `submatrix id Sum.inl` / `submatrix id Sum.inr`.
* Python runtime failures (IndexError on `caches[0]` / `caches[t]`, a read of
  the unassigned local `gradients` when the loop body never runs) make the
  sequence-backward drivers return `Option`, `none` on failure.
* `sigmoid` and `softmax` are imported by the source from `rnn_utils`, a module
  that is not part of the sources; they are modelled from the spec (§4.1).
-/

namespace RnnBuild

/-- Real matrices with statically known dimensions, the embedding of a numpy
array of shape `(n, m)`. -/
abbrev Mat (n m : ℕ) : Type := Matrix (Fin n) (Fin m) ℝ

/-- The type of an LSTM gate weight matrix of numpy shape `(n_a, n_a + n_x)`:
columns `[0, n_a)` are the hidden block (`Sum.inl`), columns `[n_a, n_a+n_x)`
the input block (`Sum.inr`). -/
abbrev GMat (na nx : ℕ) : Type := Matrix (Fin na) (Fin na ⊕ Fin nx) ℝ

/-- Elementwise application of a scalar function, as numpy ufuncs do. -/
def emap {n m : ℕ} (f : ℝ → ℝ) (M : Mat n m) : Mat n m :=
  Matrix.of fun i j => f (M i j)

/-- Elementwise (Hadamard) product, numpy `*` on same-shaped arrays. -/
def hprod {n m : ℕ} (M N : Mat n m) : Mat n m :=
  Matrix.of fun i j => M i j * N i j

/-- numpy broadcasting of a `(n, 1)` bias over the `m` batch columns of a
`(n, m)` matrix, as in `np.matmul(W, x) + b`. -/
def addBias {n m : ℕ} (M : Mat n m) (b : Mat n 1) : Mat n m :=
  Matrix.of fun i j => M i j + b i 0

/-- Row sums over the batch axis, `np.sum(M, axis=1, keepdims=True)`. -/
def rowSum {n m : ℕ} (M : Mat n m) : Mat n 1 :=
  Matrix.of fun i _ => ∑ j, M i j

/-- Elementwise `np.tanh`. -/
noncomputable def tanhM {n m : ℕ} (M : Mat n m) : Mat n m :=
  emap Real.tanh M

/-- Modelled from the spec: `rnn_utils.sigmoid` is not among the sources;
spec §4.1 defines `sigmoid(z) = 1 / (1 + exp(-z))`, applied elementwise. -/
noncomputable def sigmoid {n m : ℕ} (M : Mat n m) : Mat n m :=
  emap (fun z => 1 / (1 + Real.exp (-z))) M

/-- Modelled from the spec: `rnn_utils.softmax` is not among the sources;
spec §4.1 defines `softmax(z)[i,j] = exp(z[i,j]) / sum_k exp(z[k,j])`,
normalizing each batch column independently. -/
noncomputable def softmax {n m : ℕ} (M : Mat n m) : Mat n m :=
  Matrix.of fun i j => Real.exp (M i j) / ∑ k, Real.exp (M k j)

/-- Vertical concatenation `concat[:n_a] = a_prev; concat[n_a:] = xt`
(`lstm_cell_forward` lines 139–141, `np.concatenate` in the backward pass). -/
def vconcat {na nx m : ℕ} (A : Mat na m) (X : Mat nx m) :
    Matrix (Fin na ⊕ Fin nx) (Fin m) ℝ :=
  Matrix.of fun i j => Sum.elim (fun ia => A ia j) (fun ix => X ix j) i

/-- Parameter record of the simple recurrent cell (`by` is a Lean keyword, so
the output bias is `by'`). -/
structure RnnParams (na nx ny : ℕ) where
  Wax : Mat na nx
  Waa : Mat na na
  Wya : Mat ny na
  ba : Mat na 1
  by' : Mat ny 1

/-- Per-step cache of the simple cell: `(a_next, a_prev, xt, parameters)`. -/
structure RnnCache (na nx ny m : ℕ) where
  a_next : Mat na m
  a_prev : Mat na m
  xt : Mat nx m
  parameters : RnnParams na nx ny

/-- Return value of `rnn_cell_forward`. -/
structure RnnCellOut (na nx ny m : ℕ) where
  a_next : Mat na m
  yt_pred : Mat ny m
  cache : RnnCache na nx ny m

/-- Embeds `rnn_cell_forward(xt, a_prev, parameters)` (source lines 4–38). -/
noncomputable def rnn_cell_forward {na nx ny m : ℕ} (xt : Mat nx m) (a_prev : Mat na m)
    (parameters : RnnParams na nx ny) : RnnCellOut na nx ny m :=
  let a_next := tanhM (addBias (parameters.Wax * xt + parameters.Waa * a_prev) parameters.ba)
  let yt_pred := softmax (addBias (parameters.Wya * a_next) parameters.by')
  ⟨a_next, yt_pred, ⟨a_next, a_prev, xt, parameters⟩⟩

/-- The per-step loop of `rnn_forward` (source lines 76–84): walks the time
slices in increasing order, feeding each step's `a_next` to the next step. -/
noncomputable def rnn_forward_steps {na nx ny m : ℕ} (parameters : RnnParams na nx ny) :
    List (Mat nx m) → Mat na m →
      List (Mat na m) × List (Mat ny m) × List (RnnCache na nx ny m)
  | [], _ => ([], [], [])
  | xt :: xs, a_prev =>
    let r := rnn_cell_forward xt a_prev parameters
    let rest := rnn_forward_steps parameters xs r.a_next
    (r.a_next :: rest.1, r.yt_pred :: rest.2.1, r.cache :: rest.2.2)

/-- Return value of `rnn_forward`: hidden states, predictions and the sequence
cache `(list of per-step caches, x)`. -/
structure RnnForwardOut (na nx ny m : ℕ) where
  a : List (Mat na m)
  y_pred : List (Mat ny m)
  caches : List (RnnCache na nx ny m) × List (Mat nx m)

/-- Embeds `rnn_forward(x, a0, parameters)` (source lines 41–89). -/
noncomputable def rnn_forward {na nx ny m : ℕ} (x : List (Mat nx m)) (a0 : Mat na m)
    (parameters : RnnParams na nx ny) : RnnForwardOut na nx ny m :=
  let r := rnn_forward_steps parameters x a0
  ⟨r.1, r.2.1, (r.2.2, x)⟩

/-- Parameter record of the LSTM cell. -/
structure LstmParams (na nx ny : ℕ) where
  Wf : GMat na nx
  bf : Mat na 1
  Wi : GMat na nx
  bi : Mat na 1
  Wc : GMat na nx
  bc : Mat na 1
  Wo : GMat na nx
  bo : Mat na 1
  Wy : Mat ny na
  by' : Mat ny 1

/-- Per-step cache of the LSTM cell:
`(a_next, c_next, a_prev, c_prev, ft, it, cct, ot, xt, parameters)`. -/
structure LstmCache (na nx ny m : ℕ) where
  a_next : Mat na m
  c_next : Mat na m
  a_prev : Mat na m
  c_prev : Mat na m
  ft : Mat na m
  it : Mat na m
  cct : Mat na m
  ot : Mat na m
  xt : Mat nx m
  parameters : LstmParams na nx ny

/-- Return value of `lstm_cell_forward`. -/
structure LstmCellOut (na nx ny m : ℕ) where
  a_next : Mat na m
  c_next : Mat na m
  yt_pred : Mat ny m
  cache : LstmCache na nx ny m

/-- Embeds `lstm_cell_forward(xt, a_prev, c_prev, parameters)` (source lines 92–157). -/
noncomputable def lstm_cell_forward {na nx ny m : ℕ} (xt : Mat nx m)
    (a_prev c_prev : Mat na m) (parameters : LstmParams na nx ny) :
    LstmCellOut na nx ny m :=
  let concat := vconcat a_prev xt
  let ft := sigmoid (addBias (parameters.Wf * concat) parameters.bf)
  let it := sigmoid (addBias (parameters.Wi * concat) parameters.bi)
  let cct := tanhM (addBias (parameters.Wc * concat) parameters.bc)
  let c_next := hprod ft c_prev + hprod it cct
  let ot := sigmoid (addBias (parameters.Wo * concat) parameters.bo)
  let a_next := hprod ot (tanhM c_next)
  let yt_pred := softmax (addBias (parameters.Wy * a_next) parameters.by')
  ⟨a_next, c_next, yt_pred, ⟨a_next, c_next, a_prev, c_prev, ft, it, cct, ot, xt, parameters⟩⟩

/-- The per-step loop of `lstm_forward` (source lines 203–213). -/
noncomputable def lstm_forward_steps {na nx ny m : ℕ} (parameters : LstmParams na nx ny) :
    List (Mat nx m) → Mat na m → Mat na m →
      List (Mat na m) × List (Mat ny m) × List (Mat na m) × List (LstmCache na nx ny m)
  | [], _, _ => ([], [], [], [])
  | xt :: xs, a_prev, c_prev =>
    let r := lstm_cell_forward xt a_prev c_prev parameters
    let rest := lstm_forward_steps parameters xs r.a_next r.c_next
    (r.a_next :: rest.1, r.yt_pred :: rest.2.1, r.c_next :: rest.2.2.1, r.cache :: rest.2.2.2)

/-- Return value of `lstm_forward`. -/
structure LstmForwardOut (na nx ny m : ℕ) where
  a : List (Mat na m)
  y : List (Mat ny m)
  c : List (Mat na m)
  caches : List (LstmCache na nx ny m) × List (Mat nx m)

/-- Embeds `lstm_forward(x, a0, parameters)` (source lines 160–218); the cell state is
initialized to `np.zeros(a_next.shape)` at time 0. -/
noncomputable def lstm_forward {na nx ny m : ℕ} (x : List (Mat nx m)) (a0 : Mat na m)
    (parameters : LstmParams na nx ny) : LstmForwardOut na nx ny m :=
  let r := lstm_forward_steps parameters x a0 0
  ⟨r.1, r.2.1, r.2.2.1, (r.2.2.2, x)⟩

/-- Gradient record returned by `rnn_cell_backward`. -/
structure RnnGrads (na nx m : ℕ) where
  dxt : Mat nx m
  da_prev : Mat na m
  dWax : Mat na nx
  dWaa : Mat na na
  dba : Mat na 1

/-- Embeds `rnn_cell_backward(da_next, cache)` (source lines 221–265). -/
noncomputable def rnn_cell_backward {na nx ny m : ℕ} (da_next : Mat na m)
    (cache : RnnCache na nx ny m) : RnnGrads na nx m :=
  let dtanh := hprod (emap (fun v => 1 - v ^ 2) cache.a_next) da_next
  let dxt := cache.parameters.Wax.transpose * dtanh
  let dWax := dtanh * cache.xt.transpose
  let da_prev := cache.parameters.Waa.transpose * dtanh
  let dWaa := dtanh * cache.a_prev.transpose
  let dba := rowSum dtanh
  ⟨dxt, da_prev, dWax, dWaa, dba⟩

/-- Gradient record returned by `lstm_cell_backward`. -/
structure LstmGrads (na nx m : ℕ) where
  dxt : Mat nx m
  da_prev : Mat na m
  dc_prev : Mat na m
  dWf : GMat na nx
  dWi : GMat na nx
  dWc : GMat na nx
  dWo : GMat na nx
  dbf : Mat na 1
  dbi : Mat na 1
  dbc : Mat na 1
  dbo : Mat na 1

/-- Embeds `lstm_cell_backward(da_next, dc_next, cache)` (source lines 324–408). -/
noncomputable def lstm_cell_backward {na nx ny m : ℕ} (da_next dc_next : Mat na m)
    (cache : LstmCache na nx ny m) : LstmGrads na nx m :=
  let dot := hprod (hprod (hprod da_next (tanhM cache.c_next)) cache.ot)
    (emap (fun v => 1 - v) cache.ot)
  let dcct := hprod
    (hprod dc_next cache.it +
      hprod (hprod (hprod cache.ot (emap (fun v => 1 - v ^ 2) (tanhM cache.c_next))) cache.it)
        da_next)
    (emap (fun v => 1 - v ^ 2) cache.cct)
  let dit := hprod
    (hprod
      (hprod (dc_next + hprod (hprod da_next cache.ot) (emap (fun v => 1 - v ^ 2) (tanhM cache.c_next)))
        cache.cct)
      cache.it)
    (emap (fun v => 1 - v) cache.it)
  let dft := hprod
    (hprod
      (hprod (dc_next + hprod (hprod da_next cache.ot) (emap (fun v => 1 - v ^ 2) (tanhM cache.c_next)))
        cache.c_prev)
      cache.ft)
    (emap (fun v => 1 - v) cache.ft)
  let concat := vconcat cache.a_prev cache.xt
  let dWf := dft * concat.transpose
  let dWi := dit * concat.transpose
  let dWc := dcct * concat.transpose
  let dWo := dot * concat.transpose
  let dbf := rowSum dft
  let dbi := rowSum dit
  let dbc := rowSum dcct
  let dbo := rowSum dot
  let da_prev := (cache.parameters.Wf.submatrix id Sum.inl).transpose * dft +
    (cache.parameters.Wi.submatrix id Sum.inl).transpose * dit +
    (cache.parameters.Wc.submatrix id Sum.inl).transpose * dcct +
    (cache.parameters.Wo.submatrix id Sum.inl).transpose * dot
  let dc_prev := hprod
    (dc_next + hprod (hprod da_next cache.ot) (emap (fun v => 1 - v ^ 2) (tanhM cache.c_next)))
    cache.ft
  let dxt := (cache.parameters.Wf.submatrix id Sum.inr).transpose * dft +
    (cache.parameters.Wi.submatrix id Sum.inr).transpose * dit +
    (cache.parameters.Wc.submatrix id Sum.inr).transpose * dcct +
    (cache.parameters.Wo.submatrix id Sum.inr).transpose * dot
  ⟨dxt, da_prev, dc_prev, dWf, dWi, dWc, dWo, dbf, dbi, dbc, dbo⟩

/-- Accumulated gradients returned by `rnn_backward`. -/
structure RnnSeqGrads (na nx m : ℕ) where
  dx : List (Mat nx m)
  da0 : Mat na m
  dWax : Mat na nx
  dWaa : Mat na na
  dba : Mat na 1

/-- The reversed time loop of `rnn_backward` (source lines 304–313), processing
steps `t, t-1, …, 0` given the hidden-state gradient carried into step `t`.
The per-parameter gradients accumulate over the processed steps; `dx` holds the
per-step input gradients for indices `0..t`; `da0` is the `da_prev` of the last
processed (`t = 0`) call.  A missing index (`da` longer than `caches`) is
Python's IndexError, hence `none`. -/
noncomputable def rnn_backward_steps {na nx ny m : ℕ} (das : List (Mat na m))
    (cs : List (RnnCache na nx ny m)) : ℕ → Mat na m → Option (RnnSeqGrads na nx m)
  | 0, da_prevt => do
    let dat ← das[0]?
    let c ← cs[0]?
    let g := rnn_cell_backward (dat + da_prevt) c
    some ⟨[g.dxt], g.da_prev, g.dWax, g.dWaa, g.dba⟩
  | t + 1, da_prevt => do
    let dat ← das[t + 1]?
    let c ← cs[t + 1]?
    let g := rnn_cell_backward (dat + da_prevt) c
    let r ← rnn_backward_steps das cs t g.da_prev
    some ⟨r.dx ++ [g.dxt], r.da0, r.dWax + g.dWax, r.dWaa + g.dWaa, r.dba + g.dba⟩

/-- Embeds `rnn_backward(da, caches)` (source lines 268–321): destructures `caches[0]`
first (IndexError — `none` — on an empty cache list), reads the time length
from `da`, and runs the reversed loop with an all-zero initial carried
gradient.  With time length 0 the loop never runs and the zero initializations
are returned unchanged. -/
noncomputable def rnn_backward {na nx ny m : ℕ} (da : List (Mat na m))
    (caches : List (RnnCache na nx ny m) × List (Mat nx m)) :
    Option (RnnSeqGrads na nx m) :=
  match caches.1 with
  | [] => none
  | _ :: _ =>
    match da.length with
    | 0 => some ⟨[], 0, 0, 0, 0⟩
    | T + 1 => rnn_backward_steps da caches.1 T 0

/-- Accumulated gradients returned by `lstm_backward`. -/
structure LstmSeqGrads (na nx m : ℕ) where
  dx : List (Mat nx m)
  da0 : Mat na m
  dWf : GMat na nx
  dWi : GMat na nx
  dWc : GMat na nx
  dWo : GMat na nx
  dbf : Mat na 1
  dbi : Mat na 1
  dbc : Mat na 1
  dbo : Mat na 1

/-- The reversed time loop of `lstm_backward` (source lines 456–469).  The loop
body stores `dxt`, accumulates the eight parameter gradients, and nothing else:
the carried variables `da_prevt` and `dc_prevt` are never reassigned, so the
recursive call passes `dc_prevt` through unchanged, and every per-step call
receives the same cell-state gradient the loop started with.  `da0` is the
`da_prev` of the last processed (`t = 0`) call (source line 472). -/
noncomputable def lstm_backward_steps {na nx ny m : ℕ} (das : List (Mat na m))
    (cs : List (LstmCache na nx ny m)) : ℕ → Mat na m → Option (LstmSeqGrads na nx m)
  | 0, dc_prevt => do
    let dat ← das[0]?
    let c ← cs[0]?
    let g := lstm_cell_backward dat dc_prevt c
    some ⟨[g.dxt], g.da_prev, g.dWf, g.dWi, g.dWc, g.dWo, g.dbf, g.dbi, g.dbc, g.dbo⟩
  | t + 1, dc_prevt => do
    let dat ← das[t + 1]?
    let c ← cs[t + 1]?
    let g := lstm_cell_backward dat dc_prevt c
    let r ← lstm_backward_steps das cs t dc_prevt
    some ⟨r.dx ++ [g.dxt], r.da0, r.dWf + g.dWf, r.dWi + g.dWi, r.dWc + g.dWc,
      r.dWo + g.dWo, r.dbf + g.dbf, r.dbi + g.dbi, r.dbc + g.dbc, r.dbo + g.dbo⟩

/-- Embeds `lstm_backward(da, caches)` (source lines 411–478): destructures `caches[0]`
first (IndexError — `none` — on an empty cache list) and reads the time length
from `da.shape`.  With time length 0 the loop body never runs and the source
then reads the unassigned local `gradients` (a NameError), hence `none`. -/
noncomputable def lstm_backward {na nx ny m : ℕ} (da : List (Mat na m))
    (caches : List (LstmCache na nx ny m) × List (Mat nx m)) :
    Option (LstmSeqGrads na nx m) :=
  match caches.1 with
  | [] => none
  | _ :: _ =>
    match da.length with
    | 0 => none
    | T + 1 => lstm_backward_steps da caches.1 T 0

/-! ### Range of the scalar activations -/

theorem tanh_lt_one (x : ℝ) : Real.tanh x < 1 := by
  rw [Real.tanh_eq_sinh_div_cosh, div_lt_one (Real.cosh_pos x)]
  exact Real.sinh_lt_cosh x

theorem neg_one_lt_tanh (x : ℝ) : -1 < Real.tanh x := by
  have h := tanh_lt_one (-x)
  rw [Real.tanh_neg] at h
  linarith

theorem sigmoid_pos (z : ℝ) : 0 < 1 / (1 + Real.exp (-z)) := by
  have h := Real.exp_pos (-z)
  positivity

theorem sigmoid_lt_one (z : ℝ) : 1 / (1 + Real.exp (-z)) < 1 := by
  have h := Real.exp_pos (-z)
  rw [div_lt_one (by linarith)]
  linarith

theorem sigmoid_entry_pos {n m : ℕ} (M : Mat n m) (i : Fin n) (j : Fin m) :
    0 < sigmoid M i j := by
  simpa [sigmoid, emap] using sigmoid_pos (M i j)

theorem sigmoid_entry_lt_one {n m : ℕ} (M : Mat n m) (i : Fin n) (j : Fin m) :
    sigmoid M i j < 1 := by
  simpa [sigmoid, emap] using sigmoid_lt_one (M i j)

theorem softmax_entry_nonneg {n m : ℕ} (M : Mat (n + 1) m) (i : Fin (n + 1)) (j : Fin m) :
    0 ≤ softmax M i j := by
  have hnum := (Real.exp_pos (M i j)).le
  have hden : (0 : ℝ) < ∑ k, Real.exp (M k j) :=
    Finset.sum_pos (fun k _ => Real.exp_pos (M k j)) Finset.univ_nonempty
  simp only [softmax, Matrix.of_apply]
  positivity

theorem softmax_entry_le_one {n m : ℕ} (M : Mat (n + 1) m) (i : Fin (n + 1)) (j : Fin m) :
    softmax M i j ≤ 1 := by
  have hden : (0 : ℝ) < ∑ k, Real.exp (M k j) :=
    Finset.sum_pos (fun k _ => Real.exp_pos (M k j)) Finset.univ_nonempty
  have hle : Real.exp (M i j) ≤ ∑ k, Real.exp (M k j) :=
    Finset.single_le_sum (fun k _ => (Real.exp_pos (M k j)).le) (Finset.mem_univ i)
  simp only [softmax, Matrix.of_apply]
  exact (div_le_one hden).mpr hle

theorem softmax_col_sum_one {n m : ℕ} (M : Mat (n + 1) m) (j : Fin m) :
    (∑ i, softmax M i j) = 1 := by
  have hden : (0 : ℝ) < ∑ k, Real.exp (M k j) :=
    Finset.sum_pos (fun k _ => Real.exp_pos (M k j)) Finset.univ_nonempty
  simp only [softmax, Matrix.of_apply]
  rw [← Finset.sum_div, div_self hden.ne']

/-- C9: each column of a softmax output sums to 1 and every entry lies in
`[0, 1]`; every tanh-gated hidden-state entry — `a_next` of the simple cell and
the LSTM candidate `cct` — lies strictly within `(-1, 1)`; and every
sigmoid-gated value — `ft`, `it`, `ot` — lies strictly within `(0, 1)`. -/
theorem activation_range_guarantees :
    (∀ (n m : ℕ) (z : Mat (n + 1) m) (j : Fin m),
      (∑ i, softmax z i j) = 1 ∧ ∀ i, 0 ≤ softmax z i j ∧ softmax z i j ≤ 1) ∧
    (∀ (na nx ny m : ℕ) (xt : Mat nx m) (a_prev : Mat na m)
      (p : RnnParams na nx ny) (i : Fin na) (j : Fin m),
      -1 < (rnn_cell_forward xt a_prev p).a_next i j ∧
        (rnn_cell_forward xt a_prev p).a_next i j < 1) ∧
    (∀ (na nx ny m : ℕ) (xt : Mat nx m) (a_prev c_prev : Mat na m)
      (p : LstmParams na nx ny) (i : Fin na) (j : Fin m),
      (0 < (lstm_cell_forward xt a_prev c_prev p).cache.ft i j ∧
        (lstm_cell_forward xt a_prev c_prev p).cache.ft i j < 1) ∧
      (0 < (lstm_cell_forward xt a_prev c_prev p).cache.it i j ∧
        (lstm_cell_forward xt a_prev c_prev p).cache.it i j < 1) ∧
      (0 < (lstm_cell_forward xt a_prev c_prev p).cache.ot i j ∧
        (lstm_cell_forward xt a_prev c_prev p).cache.ot i j < 1) ∧
      (-1 < (lstm_cell_forward xt a_prev c_prev p).cache.cct i j ∧
        (lstm_cell_forward xt a_prev c_prev p).cache.cct i j < 1)) := by
  refine ⟨fun n m z j => ⟨softmax_col_sum_one z j,
      fun i => ⟨softmax_entry_nonneg z i j, softmax_entry_le_one z i j⟩⟩,
    fun na nx ny m xt a_prev p i j => ?_, fun na nx ny m xt a_prev c_prev p i j => ?_⟩
  · exact ⟨by simpa [rnn_cell_forward, tanhM, emap] using
        neg_one_lt_tanh ((addBias (p.Wax * xt + p.Waa * a_prev) p.ba) i j),
      by simpa [rnn_cell_forward, tanhM, emap] using
        tanh_lt_one ((addBias (p.Wax * xt + p.Waa * a_prev) p.ba) i j)⟩
  · refine ⟨⟨?_, ?_⟩, ⟨?_, ?_⟩, ⟨?_, ?_⟩, ⟨?_, ?_⟩⟩ <;>
      simp only [lstm_cell_forward] <;>
      first
        | exact sigmoid_entry_pos _ i j
        | exact sigmoid_entry_lt_one _ i j
        | exact (by simpa [tanhM, emap] using
            neg_one_lt_tanh ((addBias (p.Wc * vconcat a_prev xt) p.bc) i j))
        | exact (by simpa [tanhM, emap] using
            tanh_lt_one ((addBias (p.Wc * vconcat a_prev xt) p.bc) i j))

/-- C10: both sequence-backward operations destructure `caches[0]` before any
other work, so a call whose per-step cache list is empty fails (Python
IndexError, `none` in the embedding) rather than returning zero-filled
gradients. -/
theorem backward_requires_nonempty_caches :
    (∀ (na nx ny m : ℕ) (das : List (Mat na m)) (xs : List (Mat nx m)),
      rnn_backward das (([] : List (RnnCache na nx ny m)), xs) = none) ∧
    (∀ (na nx ny m : ℕ) (das : List (Mat na m)) (xs : List (Mat nx m)),
      lstm_backward das (([] : List (LstmCache na nx ny m)), xs) = none) :=
  ⟨fun _ _ _ _ _ _ => rfl, fun _ _ _ _ _ _ => rfl⟩

/-- C2: `rnn_cell_forward` returns `a_next = tanh(Wax·xt + Waa·a_prev + ba)`
(bias broadcast over the batch columns), `yt_pred = softmax(Wya·a_next + by)`
normalized per batch column, and a cache containing exactly
`(a_next, a_prev, xt, parameters)`. -/
theorem rnn_cell_forward_spec {na nx ny m : ℕ} (xt : Mat nx m) (a_prev : Mat na m)
    (p : RnnParams na nx ny) :
    (∀ i j, (rnn_cell_forward xt a_prev p).a_next i j =
      Real.tanh ((∑ k, p.Wax i k * xt k j) + (∑ k, p.Waa i k * a_prev k j) + p.ba i 0)) ∧
    (∀ i j, (rnn_cell_forward xt a_prev p).yt_pred i j =
      Real.exp ((∑ k, p.Wya i k * (rnn_cell_forward xt a_prev p).a_next k j) + p.by' i 0) /
        ∑ l, Real.exp ((∑ k, p.Wya l k * (rnn_cell_forward xt a_prev p).a_next k j) + p.by' l 0)) ∧
    (rnn_cell_forward xt a_prev p).cache =
      ⟨(rnn_cell_forward xt a_prev p).a_next, a_prev, xt, p⟩ := by
  refine ⟨fun i j => ?_, fun i j => ?_, rfl⟩
  · simp [rnn_cell_forward, tanhM, emap, addBias, Matrix.mul_apply, Matrix.add_apply]
  · simp [rnn_cell_forward, softmax, addBias, Matrix.mul_apply, Matrix.add_apply]

/-- C3: `lstm_cell_forward` computes, on the concatenation of `a_prev` over
`xt` (hidden rows first, then input rows), the four gates
`ft = sigmoid(Wf·concat + bf)`, `it = sigmoid(Wi·concat + bi)`,
`cct = tanh(Wc·concat + bc)`, `ot = sigmoid(Wo·concat + bo)`, then
`c_next = ft ⊙ c_prev + it ⊙ cct`, `a_next = ot ⊙ tanh(c_next)` and
`yt = softmax(Wy·a_next + by)`, and returns a cache recording
`(a_next, c_next, a_prev, c_prev, ft, it, cct, ot, xt, parameters)`. -/
theorem lstm_cell_forward_spec {na nx ny m : ℕ} (xt : Mat nx m) (a_prev c_prev : Mat na m)
    (q : LstmParams na nx ny) :
    (∀ i j, (lstm_cell_forward xt a_prev c_prev q).cache.ft i j =
      1 / (1 + Real.exp (-((∑ k, q.Wf i (Sum.inl k) * a_prev k j) +
        (∑ k, q.Wf i (Sum.inr k) * xt k j) + q.bf i 0)))) ∧
    (∀ i j, (lstm_cell_forward xt a_prev c_prev q).cache.it i j =
      1 / (1 + Real.exp (-((∑ k, q.Wi i (Sum.inl k) * a_prev k j) +
        (∑ k, q.Wi i (Sum.inr k) * xt k j) + q.bi i 0)))) ∧
    (∀ i j, (lstm_cell_forward xt a_prev c_prev q).cache.cct i j =
      Real.tanh ((∑ k, q.Wc i (Sum.inl k) * a_prev k j) +
        (∑ k, q.Wc i (Sum.inr k) * xt k j) + q.bc i 0)) ∧
    (∀ i j, (lstm_cell_forward xt a_prev c_prev q).cache.ot i j =
      1 / (1 + Real.exp (-((∑ k, q.Wo i (Sum.inl k) * a_prev k j) +
        (∑ k, q.Wo i (Sum.inr k) * xt k j) + q.bo i 0)))) ∧
    (∀ i j, (lstm_cell_forward xt a_prev c_prev q).c_next i j =
      (lstm_cell_forward xt a_prev c_prev q).cache.ft i j * c_prev i j +
        (lstm_cell_forward xt a_prev c_prev q).cache.it i j *
          (lstm_cell_forward xt a_prev c_prev q).cache.cct i j) ∧
    (∀ i j, (lstm_cell_forward xt a_prev c_prev q).a_next i j =
      (lstm_cell_forward xt a_prev c_prev q).cache.ot i j *
        Real.tanh ((lstm_cell_forward xt a_prev c_prev q).c_next i j)) ∧
    (∀ i j, (lstm_cell_forward xt a_prev c_prev q).yt_pred i j =
      Real.exp ((∑ k, q.Wy i k * (lstm_cell_forward xt a_prev c_prev q).a_next k j) + q.by' i 0) /
        ∑ l, Real.exp ((∑ k, q.Wy l k * (lstm_cell_forward xt a_prev c_prev q).a_next k j) +
          q.by' l 0)) ∧
    (lstm_cell_forward xt a_prev c_prev q).cache =
      ⟨(lstm_cell_forward xt a_prev c_prev q).a_next,
        (lstm_cell_forward xt a_prev c_prev q).c_next, a_prev, c_prev,
        (lstm_cell_forward xt a_prev c_prev q).cache.ft,
        (lstm_cell_forward xt a_prev c_prev q).cache.it,
        (lstm_cell_forward xt a_prev c_prev q).cache.cct,
        (lstm_cell_forward xt a_prev c_prev q).cache.ot, xt, q⟩ := by
  refine ⟨fun i j => ?_, fun i j => ?_, fun i j => ?_, fun i j => ?_, fun i j => ?_,
    fun i j => ?_, fun i j => ?_, rfl⟩ <;>
    simp only [lstm_cell_forward, sigmoid, tanhM, softmax, emap, addBias, hprod, vconcat,
      Matrix.of_apply, Matrix.mul_apply, Matrix.add_apply, Fintype.sum_sum_type,
      Sum.elim_inl, Sum.elim_inr]

/-- Output-gate pre-activation gradient as written in the spec (§4.8):
`d_ot = da_next ⊙ tanh_c ⊙ ot ⊙ (1-ot)`. -/
noncomputable def spec_d_ot {na nx ny m : ℕ} (da_next : Mat na m)
    (cache : LstmCache na nx ny m) : Mat na m :=
  hprod (hprod (hprod da_next (tanhM cache.c_next)) cache.ot) (emap (fun v => 1 - v) cache.ot)

/-- Candidate pre-activation gradient as written in the spec (§4.8):
`d_cct = [dc_next ⊙ it + da_next ⊙ ot ⊙ (1-tanh_c²) ⊙ it] ⊙ (1-cct²)`. -/
noncomputable def spec_d_cct {na nx ny m : ℕ} (da_next dc_next : Mat na m)
    (cache : LstmCache na nx ny m) : Mat na m :=
  hprod
    (hprod dc_next cache.it +
      hprod (hprod (hprod da_next cache.ot) (emap (fun v => 1 - v ^ 2) (tanhM cache.c_next)))
        cache.it)
    (emap (fun v => 1 - v ^ 2) cache.cct)

/-- Update-gate pre-activation gradient as written in the spec (§4.8):
`d_it = [dc_next + da_next ⊙ ot ⊙ (1-tanh_c²)] ⊙ cct ⊙ it ⊙ (1-it)`. -/
noncomputable def spec_d_it {na nx ny m : ℕ} (da_next dc_next : Mat na m)
    (cache : LstmCache na nx ny m) : Mat na m :=
  hprod
    (hprod
      (hprod (dc_next + hprod (hprod da_next cache.ot) (emap (fun v => 1 - v ^ 2) (tanhM cache.c_next)))
        cache.cct)
      cache.it)
    (emap (fun v => 1 - v) cache.it)

/-- Forget-gate pre-activation gradient as written in the spec (§4.8):
`d_ft = [dc_next + da_next ⊙ ot ⊙ (1-tanh_c²)] ⊙ c_prev ⊙ ft ⊙ (1-ft)`. -/
noncomputable def spec_d_ft {na nx ny m : ℕ} (da_next dc_next : Mat na m)
    (cache : LstmCache na nx ny m) : Mat na m :=
  hprod
    (hprod
      (hprod (dc_next + hprod (hprod da_next cache.ot) (emap (fun v => 1 - v ^ 2) (tanhM cache.c_next)))
        cache.c_prev)
      cache.ft)
    (emap (fun v => 1 - v) cache.ft)

/-- C5: `lstm_cell_backward` computes the gate pre-activation gradients by the
spec's formulas, weight gradients as `d_gate · concatᵀ` with bias gradients as
batch row-sums, `dc_prev = [dc_next + da_next ⊙ ot ⊙ (1-tanh_c²)] ⊙ ft`, and
`da_prev` / `dxt` as the sums over the four gates of the transposed
hidden-columns (respectively input-columns) sub-block of each gate weight
matrix times that gate's pre-activation gradient. -/
theorem lstm_cell_backward_spec {na nx ny m : ℕ} (da_next dc_next : Mat na m)
    (cache : LstmCache na nx ny m) :
    lstm_cell_backward da_next dc_next cache =
      ⟨(cache.parameters.Wf.submatrix id Sum.inr).transpose * spec_d_ft da_next dc_next cache +
          (cache.parameters.Wi.submatrix id Sum.inr).transpose * spec_d_it da_next dc_next cache +
          (cache.parameters.Wc.submatrix id Sum.inr).transpose * spec_d_cct da_next dc_next cache +
          (cache.parameters.Wo.submatrix id Sum.inr).transpose * spec_d_ot da_next cache,
        (cache.parameters.Wf.submatrix id Sum.inl).transpose * spec_d_ft da_next dc_next cache +
          (cache.parameters.Wi.submatrix id Sum.inl).transpose * spec_d_it da_next dc_next cache +
          (cache.parameters.Wc.submatrix id Sum.inl).transpose * spec_d_cct da_next dc_next cache +
          (cache.parameters.Wo.submatrix id Sum.inl).transpose * spec_d_ot da_next cache,
        hprod
          (dc_next +
            hprod (hprod da_next cache.ot) (emap (fun v => 1 - v ^ 2) (tanhM cache.c_next)))
          cache.ft,
        spec_d_ft da_next dc_next cache * (vconcat cache.a_prev cache.xt).transpose,
        spec_d_it da_next dc_next cache * (vconcat cache.a_prev cache.xt).transpose,
        spec_d_cct da_next dc_next cache * (vconcat cache.a_prev cache.xt).transpose,
        spec_d_ot da_next cache * (vconcat cache.a_prev cache.xt).transpose,
        rowSum (spec_d_ft da_next dc_next cache),
        rowSum (spec_d_it da_next dc_next cache),
        rowSum (spec_d_cct da_next dc_next cache),
        rowSum (spec_d_ot da_next cache)⟩ := by
  have hcct :
      hprod
        (hprod dc_next cache.it +
          hprod
            (hprod (hprod cache.ot (emap (fun v => 1 - v ^ 2) (tanhM cache.c_next))) cache.it)
            da_next)
        (emap (fun v => 1 - v ^ 2) cache.cct) = spec_d_cct da_next dc_next cache := by
    funext i j
    simp only [spec_d_cct, hprod, emap, Matrix.of_apply, Matrix.add_apply]
    ring
  simp only [lstm_cell_backward, spec_d_ot, spec_d_it, spec_d_ft, hcct]

/-- The chain of hidden states of the simple recurrent sequence: state `0` is
the supplied initial state, state `t+1` is the cell output on time slice `t`
and state `t`. -/
noncomputable def rnnStates {na nx ny m : ℕ} (p : RnnParams na nx ny) (a0 : Mat na m)
    (xs : List (Mat nx m)) : ℕ → Mat na m
  | 0 => a0
  | t + 1 => (rnn_cell_forward (xs.getD t 0) (rnnStates p a0 xs t) p).a_next

/-- The chain of (hidden, cell) state pairs of the LSTM sequence, from an
arbitrary initial pair. -/
noncomputable def lstmStatesFrom {na nx ny m : ℕ} (q : LstmParams na nx ny)
    (s0 : Mat na m × Mat na m) (xs : List (Mat nx m)) : ℕ → Mat na m × Mat na m
  | 0 => s0
  | t + 1 =>
    ((lstm_cell_forward (xs.getD t 0) (lstmStatesFrom q s0 xs t).1 (lstmStatesFrom q s0 xs t).2
        q).a_next,
      (lstm_cell_forward (xs.getD t 0) (lstmStatesFrom q s0 xs t).1 (lstmStatesFrom q s0 xs t).2
        q).c_next)

/-- The LSTM state chain as `lstm_forward` starts it: the caller's `a0` paired
with an all-zero initial cell state. -/
noncomputable def lstmStates {na nx ny m : ℕ} (q : LstmParams na nx ny) (a0 : Mat na m)
    (xs : List (Mat nx m)) : ℕ → Mat na m × Mat na m :=
  lstmStatesFrom q (a0, 0) xs

theorem rnnStates_cons {na nx ny m : ℕ} (p : RnnParams na nx ny) (a0 : Mat na m)
    (x : Mat nx m) (xs : List (Mat nx m)) (t : ℕ) :
    rnnStates p a0 (x :: xs) (t + 1) = rnnStates p (rnn_cell_forward x a0 p).a_next xs t := by
  induction t with
  | zero => simp only [rnnStates, List.getD_cons_zero]
  | succ t ih =>
    have h1 : rnnStates p a0 (x :: xs) (t + 1 + 1) =
        (rnn_cell_forward (xs.getD t 0) (rnnStates p a0 (x :: xs) (t + 1)) p).a_next := rfl
    rw [h1, ih]
    rfl

theorem lstmStatesFrom_cons {na nx ny m : ℕ} (q : LstmParams na nx ny)
    (s0 : Mat na m × Mat na m) (x : Mat nx m) (xs : List (Mat nx m)) (t : ℕ) :
    lstmStatesFrom q s0 (x :: xs) (t + 1) =
      lstmStatesFrom q
        ((lstm_cell_forward x s0.1 s0.2 q).a_next, (lstm_cell_forward x s0.1 s0.2 q).c_next)
        xs t := by
  induction t with
  | zero => simp only [lstmStatesFrom, List.getD_cons_zero]
  | succ t ih =>
    have h1 : lstmStatesFrom q s0 (x :: xs) (t + 1 + 1) =
        ((lstm_cell_forward (xs.getD t 0) (lstmStatesFrom q s0 (x :: xs) (t + 1)).1
            (lstmStatesFrom q s0 (x :: xs) (t + 1)).2 q).a_next,
          (lstm_cell_forward (xs.getD t 0) (lstmStatesFrom q s0 (x :: xs) (t + 1)).1
            (lstmStatesFrom q s0 (x :: xs) (t + 1)).2 q).c_next) := rfl
    rw [h1, ih]
    rfl

theorem rnn_forward_steps_threading {na nx ny m : ℕ} (p : RnnParams na nx ny) :
    ∀ (xs : List (Mat nx m)) (a0 : Mat na m) (t : ℕ), t < xs.length →
      (rnn_forward_steps p xs a0).1[t]? = some (rnnStates p a0 xs (t + 1)) ∧
      (rnn_forward_steps p xs a0).2.2[t]? =
        some (rnn_cell_forward (xs.getD t 0) (rnnStates p a0 xs t) p).cache := by
  intro xs
  induction xs with
  | nil => intro a0 t ht; exact absurd ht (by simp)
  | cons x xs ih =>
    intro a0 t ht
    cases t with
    | zero =>
      refine ⟨?_, ?_⟩ <;>
        simp only [rnn_forward_steps, List.getElem?_cons_zero, rnnStates,
          List.getD_cons_zero, Option.some.injEq]
    | succ t =>
      have ht' : t < xs.length := by simpa using ht
      have h := ih (rnn_cell_forward x a0 p).a_next t ht'
      refine ⟨?_, ?_⟩ <;>
        simp only [rnn_forward_steps, List.getElem?_cons_succ, rnnStates_cons,
          List.getD_cons_succ]
      · exact h.1
      · rw [h.2]

theorem lstm_forward_steps_threading {na nx ny m : ℕ} (q : LstmParams na nx ny) :
    ∀ (xs : List (Mat nx m)) (s0 : Mat na m × Mat na m) (t : ℕ), t < xs.length →
      (lstm_forward_steps q xs s0.1 s0.2).1[t]? = some (lstmStatesFrom q s0 xs (t + 1)).1 ∧
      (lstm_forward_steps q xs s0.1 s0.2).2.2.1[t]? = some (lstmStatesFrom q s0 xs (t + 1)).2 ∧
      (lstm_forward_steps q xs s0.1 s0.2).2.2.2[t]? =
        some (lstm_cell_forward (xs.getD t 0) (lstmStatesFrom q s0 xs t).1
          (lstmStatesFrom q s0 xs t).2 q).cache := by
  intro xs
  induction xs with
  | nil => intro s0 t ht; exact absurd ht (by simp)
  | cons x xs ih =>
    intro s0 t ht
    cases t with
    | zero =>
      refine ⟨?_, ?_, ?_⟩ <;>
        simp only [lstm_forward_steps, List.getElem?_cons_zero, lstmStatesFrom,
          List.getD_cons_zero, Option.some.injEq]
    | succ t =>
      have ht' : t < xs.length := by simpa using ht
      have h := ih ((lstm_cell_forward x s0.1 s0.2 q).a_next,
        (lstm_cell_forward x s0.1 s0.2 q).c_next) t ht'
      refine ⟨?_, ?_, ?_⟩ <;>
        simp only [lstm_forward_steps, List.getElem?_cons_succ, lstmStatesFrom_cons,
          List.getD_cons_succ]
      · exact h.1
      · exact h.2.1
      · rw [h.2.2]

/-- C7: both sequence-forward operations thread state strictly forward in time:
for every step `t` within range, the recorded hidden state (and, for the LSTM,
cell state) equals the state chain value at `t+1`, the per-step cache is the
cell call on time slice `t` and the states produced at step `t-1` (step 0 uses
the caller's `a0`), and the LSTM chain starts from `(a0, 0)`: the cell state at
time 0 is zero regardless of the supplied initial hidden state. -/
theorem seq_forward_state_threading {na nx ny m : ℕ} (xs : List (Mat nx m)) (a0 : Mat na m)
    (p : RnnParams na nx ny) (q : LstmParams na nx ny) (t : ℕ) (ht : t < xs.length) :
    (rnn_forward xs a0 p).a[t]? = some (rnnStates p a0 xs (t + 1)) ∧
    (rnn_forward xs a0 p).caches.1[t]? =
      some (rnn_cell_forward (xs.getD t 0) (rnnStates p a0 xs t) p).cache ∧
    (lstm_forward xs a0 q).a[t]? = some (lstmStates q a0 xs (t + 1)).1 ∧
    (lstm_forward xs a0 q).c[t]? = some (lstmStates q a0 xs (t + 1)).2 ∧
    (lstm_forward xs a0 q).caches.1[t]? =
      some (lstm_cell_forward (xs.getD t 0) (lstmStates q a0 xs t).1
        (lstmStates q a0 xs t).2 q).cache ∧
    lstmStates q a0 xs 0 = (a0, 0) := by
  have hr := rnn_forward_steps_threading p xs a0 t ht
  have hl := lstm_forward_steps_threading q xs (a0, 0) t ht
  exact ⟨hr.1, hr.2, hl.1, hl.2.1, hl.2.2, rfl⟩

/-- Per-step gradient records `g_0 .. g_t` of simple-cell BPTT, chained as the
claim describes: the upstream gradient fed to step `s` is `da[s]` plus the
`da_prev` of the step `s+1` call (`dnext` for the topmost step `t`). -/
noncomputable def rnnChainSteps {na nx ny m : ℕ} (das : List (Mat na m))
    (cs : List (RnnCache na nx ny m)) : ℕ → Mat na m → Option (List (RnnGrads na nx m))
  | 0, dnext => do
    let dat ← das[0]?
    let c ← cs[0]?
    some [rnn_cell_backward (dat + dnext) c]
  | t + 1, dnext => do
    let dat ← das[t + 1]?
    let c ← cs[t + 1]?
    let g := rnn_cell_backward (dat + dnext) c
    let r ← rnnChainSteps das cs t g.da_prev
    some (r ++ [g])

/-- The full chain for steps `T, T-1, …, 0`, with the zero gradient carried
into the last step. -/
noncomputable def rnnChain {na nx ny m : ℕ} (das : List (Mat na m))
    (cs : List (RnnCache na nx ny m)) (T : ℕ) : Option (List (RnnGrads na nx m)) :=
  rnnChainSteps das cs T 0

/-- Aggregation of a list of per-step gradient records, as the claim describes
the driver's result: `dx` is the list of per-step input gradients, each
parameter gradient is the sum of the per-step contributions, and `da0` is the
step-0 record's `da_prev`. -/
noncomputable def rnnAggregate {na nx m : ℕ} (gs : List (RnnGrads na nx m)) :
    RnnSeqGrads na nx m :=
  ⟨gs.map (fun g => g.dxt), (gs.head?).elim 0 (fun g => g.da_prev),
    (gs.map (fun g => g.dWax)).sum, (gs.map (fun g => g.dWaa)).sum,
    (gs.map (fun g => g.dba)).sum⟩

theorem rnnChainSteps_ne_nil {na nx ny m : ℕ} (das : List (Mat na m))
    (cs : List (RnnCache na nx ny m)) (t : ℕ) (dnext : Mat na m)
    (gs : List (RnnGrads na nx m)) (h : rnnChainSteps das cs t dnext = some gs) :
    gs ≠ [] := by
  intro hgs
  cases t with
  | zero =>
    simp only [rnnChainSteps, Option.bind_eq_bind, Option.bind_eq_some, Option.some_inj] at h
    obtain ⟨dat, -, c, -, h⟩ := h
    rw [hgs] at h
    simp at h
  | succ t =>
    simp only [rnnChainSteps, Option.bind_eq_bind, Option.bind_eq_some, Option.some_inj] at h
    obtain ⟨dat, -, c, -, r, -, h⟩ := h
    rw [hgs] at h
    simp at h

theorem rnnChainSteps_length {na nx ny m : ℕ} (das : List (Mat na m))
    (cs : List (RnnCache na nx ny m)) :
    ∀ (t : ℕ) (dnext : Mat na m) (gs : List (RnnGrads na nx m)),
      rnnChainSteps das cs t dnext = some gs → gs.length = t + 1 := by
  intro t
  induction t with
  | zero =>
    intro dnext gs h
    simp only [rnnChainSteps, Option.bind_eq_bind, Option.bind_eq_some, Option.some_inj] at h
    obtain ⟨dat, -, c, -, h⟩ := h
    simp [← h]
  | succ t ih =>
    intro dnext gs h
    simp only [rnnChainSteps, Option.bind_eq_bind, Option.bind_eq_some, Option.some_inj] at h
    obtain ⟨dat, -, c, -, r, hr, h⟩ := h
    have := ih _ r hr
    simp [← h, this]

/-- The aggregation of a nonempty chain extended on the right by one record. -/
theorem rnnAggregate_append {na nx m : ℕ} (gs : List (RnnGrads na nx m))
    (g : RnnGrads na nx m) (h : gs ≠ []) :
    rnnAggregate (gs ++ [g]) =
      ⟨(rnnAggregate gs).dx ++ [g.dxt], (rnnAggregate gs).da0,
        (rnnAggregate gs).dWax + g.dWax, (rnnAggregate gs).dWaa + g.dWaa,
        (rnnAggregate gs).dba + g.dba⟩ := by
  cases gs with
  | nil => exact absurd rfl h
  | cons g0 gs => simp [rnnAggregate, List.sum_append, add_assoc]

/-- The reversed accumulation loop of `rnn_backward` computes exactly the
aggregation of the correctly chained per-step gradient records. -/
theorem rnn_backward_steps_eq_chain {na nx ny m : ℕ} (das : List (Mat na m))
    (cs : List (RnnCache na nx ny m)) :
    ∀ (t : ℕ) (dnext : Mat na m),
      rnn_backward_steps das cs t dnext = (rnnChainSteps das cs t dnext).map rnnAggregate := by
  intro t
  induction t with
  | zero =>
    intro dnext
    cases hd : das[0]? with
    | none => simp [rnn_backward_steps, rnnChainSteps, hd]
    | some dat =>
      cases hc : cs[0]? with
      | none => simp [rnn_backward_steps, rnnChainSteps, hd, hc]
      | some c => simp [rnn_backward_steps, rnnChainSteps, hd, hc, rnnAggregate]
  | succ t ih =>
    intro dnext
    cases hd : das[t + 1]? with
    | none => simp [rnn_backward_steps, rnnChainSteps, hd]
    | some dat =>
      cases hc : cs[t + 1]? with
      | none => simp [rnn_backward_steps, rnnChainSteps, hd, hc]
      | some c =>
        simp only [rnn_backward_steps, rnnChainSteps, hd, hc, Option.bind_eq_bind,
          Option.some_bind]
        rw [ih]
        cases hr : rnnChainSteps das cs t (rnn_cell_backward (dat + dnext) c).da_prev with
        | none => rfl
        | some gs =>
          have hne : gs ≠ [] := rnnChainSteps_ne_nil das cs t _ gs hr
          simp only [Option.map_some', Option.some_bind]
          rw [rnnAggregate_append gs _ hne]

theorem rnnChainSteps_last {na nx ny m : ℕ} (das : List (Mat na m))
    (cs : List (RnnCache na nx ny m)) :
    ∀ (t : ℕ) (dnext : Mat na m) (gs : List (RnnGrads na nx m)),
      rnnChainSteps das cs t dnext = some gs →
      ∃ dat c, das[t]? = some dat ∧ cs[t]? = some c ∧
        gs[t]? = some (rnn_cell_backward (dat + dnext) c) := by
  intro t
  cases t with
  | zero =>
    intro dnext gs h
    simp only [rnnChainSteps, Option.bind_eq_bind, Option.bind_eq_some, Option.some_inj] at h
    obtain ⟨dat, hd, c, hc, h⟩ := h
    exact ⟨dat, c, hd, hc, by simp [← h]⟩
  | succ t =>
    intro dnext gs h
    simp only [rnnChainSteps, Option.bind_eq_bind, Option.bind_eq_some, Option.some_inj] at h
    obtain ⟨dat, hd, c, hc, r, hr, h⟩ := h
    have hlen : r.length = t + 1 := rnnChainSteps_length das cs t _ r hr
    refine ⟨dat, c, hd, hc, ?_⟩
    rw [← h, List.getElem?_append_right (by omega), hlen]
    simp

theorem rnnChainSteps_step {na nx ny m : ℕ} (das : List (Mat na m))
    (cs : List (RnnCache na nx ny m)) :
    ∀ (t : ℕ) (dnext : Mat na m) (gs : List (RnnGrads na nx m)),
      rnnChainSteps das cs t dnext = some gs →
      ∀ (s : ℕ) (g1 : RnnGrads na nx m), gs[s + 1]? = some g1 →
        ∃ dat c, das[s]? = some dat ∧ cs[s]? = some c ∧
          gs[s]? = some (rnn_cell_backward (dat + g1.da_prev) c) := by
  intro t
  induction t with
  | zero =>
    intro dnext gs h s g1 hg1
    have hlen : gs.length = 1 := rnnChainSteps_length das cs 0 dnext gs h
    rw [List.getElem?_eq_none (by omega)] at hg1
    exact absurd hg1 (by simp)
  | succ t ih =>
    intro dnext gs h s g1 hg1
    simp only [rnnChainSteps, Option.bind_eq_bind, Option.bind_eq_some, Option.some_inj] at h
    obtain ⟨dat, hd, c, hc, r, hr, h⟩ := h
    have hlen : r.length = t + 1 := rnnChainSteps_length das cs t _ r hr
    rcases lt_trichotomy (s + 1) (t + 1) with hs | hs | hs
    · have h1 : gs[s + 1]? = r[s + 1]? := by
        rw [← h, List.getElem?_append_left (by omega)]
      have h2 : gs[s]? = r[s]? := by
        rw [← h, List.getElem?_append_left (by omega)]
      rw [h1] at hg1
      obtain ⟨dat2, c2, hd2, hc2, hval⟩ := ih _ r hr s g1 hg1
      exact ⟨dat2, c2, hd2, hc2, by rw [h2]; exact hval⟩
    · have hst : s = t := by omega
      subst hst
      have h1 : gs[s + 1]? = some (rnn_cell_backward (dat + dnext) c) := by
        rw [← h, List.getElem?_append_right (by omega), hlen]
        simp
      rw [h1] at hg1
      obtain ⟨dat2, c2, hd2, hc2, hval⟩ := rnnChainSteps_last das cs s _ r hr
      refine ⟨dat2, c2, hd2, hc2, ?_⟩
      rw [← h, List.getElem?_append_left (by omega), hval]
      obtain rfl : rnn_cell_backward (dat + dnext) c = g1 := Option.some_inj.mp hg1
      rfl
    · have : gs[s + 1]? = none := by
        rw [← h, List.getElem?_eq_none (by simp; omega)]
      rw [this] at hg1
      exact absurd hg1 (by simp)

/-- On a nonempty cache list, `rnn_backward` is the aggregation of the chain. -/
theorem rnn_backward_eq_chain {na nx ny m : ℕ} (das : List (Mat na m))
    (cs : List (RnnCache na nx ny m)) (xs : List (Mat nx m)) (T : ℕ)
    (hT : das.length = T + 1) (h0 : cs ≠ []) :
    rnn_backward das (cs, xs) = (rnnChain das cs T).map rnnAggregate := by
  cases cs with
  | nil => exact absurd rfl h0
  | cons c cs' =>
    have hdef : rnn_backward das (c :: cs', xs) =
        match das.length with
        | 0 => some (⟨[], 0, 0, 0, 0⟩ : RnnSeqGrads na nx m)
        | T + 1 => rnn_backward_steps das (c :: cs') T 0 := rfl
    rw [hdef, hT]
    exact rnn_backward_steps_eq_chain das (c :: cs') T 0

/-- C4: in `rnn_backward`, walking time from the last step to the first, the
upstream hidden-state gradient fed to `rnn_cell_backward` at step `t` equals
the externally supplied `da[t]` plus the `da_prev` produced by the step `t+1`
call (zero at the last step `T`), and the returned `da0` equals the `da_prev`
produced after processing step 0: the driver's result is exactly the
aggregation of the chained per-step records. -/
theorem rnn_backward_bptt_threading {na nx ny m : ℕ} (das : List (Mat na m))
    (cs : List (RnnCache na nx ny m)) (xs : List (Mat nx m)) (T : ℕ)
    (gs : List (RnnGrads na nx m)) (hT : das.length = T + 1)
    (hchain : rnnChain das cs T = some gs) :
    rnn_backward das (cs, xs) = some (rnnAggregate gs) ∧
    (∀ g0, gs[0]? = some g0 → (rnnAggregate gs).da0 = g0.da_prev) ∧
    (∃ dat c, das[T]? = some dat ∧ cs[T]? = some c ∧
      gs[T]? = some (rnn_cell_backward (dat + 0) c)) ∧
    (∀ (s : ℕ) (g1 : RnnGrads na nx m), gs[s + 1]? = some g1 →
      ∃ dat c, das[s]? = some dat ∧ cs[s]? = some c ∧
        gs[s]? = some (rnn_cell_backward (dat + g1.da_prev) c)) := by
  have hlast := rnnChainSteps_last das cs T 0 gs hchain
  have h0 : cs ≠ [] := by
    obtain ⟨dat, c, -, hc, -⟩ := hlast
    intro hnil
    rw [hnil] at hc
    simp at hc
  refine ⟨?_, ?_, hlast, rnnChainSteps_step das cs T 0 gs hchain⟩
  · rw [rnn_backward_eq_chain das cs xs T hT h0, hchain]
    rfl
  · intro g0 hg0
    simp only [rnnAggregate, List.head?_eq_getElem?, hg0, Option.elim]

/-! ### Concrete one-by-one instances for evaluating the drivers -/

/-- The all-ones one-by-one matrix. -/
noncomputable def onesM : Mat 1 1 := Matrix.of fun _ _ => 1

/-- The constant one-half one-by-one matrix. -/
noncomputable def halfM : Mat 1 1 := Matrix.of fun _ _ => 1 / 2

/-- All-zero simple-cell parameters. -/
noncomputable def witP : RnnParams 1 1 1 := ⟨0, 0, 0, 0, 0⟩

/-- A concrete simple-cell cache. -/
noncomputable def witC : RnnCache 1 1 1 1 := ⟨0, 0, 0, witP⟩

/-- A concrete upstream hidden-state gradient slice. -/
noncomputable def witD : Mat 1 1 := onesM

/-- A concrete input slice. -/
noncomputable def witX : Mat 1 1 := onesM

/-- A concrete initial hidden state. -/
noncomputable def witA0 : Mat 1 1 := onesM

/-- All-zero LSTM parameters. -/
noncomputable def exP : LstmParams 1 1 1 := ⟨0, 0, 0, 0, 0, 0, 0, 0, 0, 0⟩

/-- LSTM cache consumed at the last (`t = 1`) step: `c_next = c_prev = 0`,
`ft = ot = 1/2`, `it = cct = 0`. -/
noncomputable def exC1 : LstmCache 1 1 1 1 := ⟨0, 0, 0, 0, halfM, 0, 0, halfM, 0, exP⟩

/-- LSTM cache consumed at the first (`t = 0`) step: as `exC1` but with
`c_prev = 1`, so its forget-gate gradient is proportional to the incoming
cell-state gradient. -/
noncomputable def exC0 : LstmCache 1 1 1 1 := ⟨0, 0, 0, onesM, halfM, 0, 0, halfM, 0, exP⟩

/-- Upstream hidden-state gradient at step 0: zero. -/
noncomputable def exD0 : Mat 1 1 := 0

/-- Upstream hidden-state gradient at step 1: one. -/
noncomputable def exD1 : Mat 1 1 := onesM

/-- The accumulation `lstm_backward`'s loop produces on a two-step sequence
from the records of its `t = 1` call (`g1`) and its `t = 0` call (`g0`). -/
noncomputable def lstmCombineTwo {na nx m : ℕ} (g1 g0 : LstmGrads na nx m) :
    LstmSeqGrads na nx m :=
  ⟨[g0.dxt, g1.dxt], g0.da_prev, g0.dWf + g1.dWf, g0.dWi + g1.dWi, g0.dWc + g1.dWc,
    g0.dWo + g1.dWo, g0.dbf + g1.dbf, g0.dbi + g1.dbi, g0.dbc + g1.dbc, g0.dbo + g1.dbo⟩

/-- The result `lstm_backward`'s loop produces from a single per-step record. -/
noncomputable def lstmSingle {na nx m : ℕ} (g : LstmGrads na nx m) : LstmSeqGrads na nx m :=
  ⟨[g.dxt], g.da_prev, g.dWf, g.dWi, g.dWc, g.dWo, g.dbf, g.dbi, g.dbc, g.dbo⟩

/-- Evaluating `lstm_backward` on the two-step instance: both per-step calls
receive the all-zero cell-state gradient the loop was initialized with. -/
theorem lstm_backward_two_eval :
    lstm_backward [exD0, exD1] ([exC0, exC1], ([] : List (Mat 1 1))) =
      some (lstmCombineTwo (lstm_cell_backward exD1 (0 : Mat 1 1) exC1)
        (lstm_cell_backward exD0 (0 : Mat 1 1) exC0)) := rfl

/-- The `t = 1` call's previous-cell-state gradient on the instance is `1/4`. -/
theorem exStep1_dc_prev : (lstm_cell_backward exD1 (0 : Mat 1 1) exC1).dc_prev 0 0 = 1 / 4 := by
  simp [lstm_cell_backward, hprod, emap, tanhM, exC1, exD1, onesM, halfM, Real.tanh_zero]
  norm_num

/-- The `t = 1` call's forget-gate bias gradient vanishes (`c_prev = 0`). -/
theorem exStep1_dbf : (lstm_cell_backward exD1 (0 : Mat 1 1) exC1).dbf 0 0 = 0 := by
  simp [lstm_cell_backward, rowSum, hprod, emap, tanhM, exC1, exD1, onesM, halfM,
    Real.tanh_zero, Fin.sum_univ_one]

/-- The `t = 0` call's forget-gate bias gradient vanishes when it is given a
zero cell-state gradient (`da[0] = 0`). -/
theorem exStep0_dbf : (lstm_cell_backward exD0 (0 : Mat 1 1) exC0).dbf 0 0 = 0 := by
  simp [lstm_cell_backward, rowSum, hprod, emap, tanhM, exC0, exD0, onesM, halfM,
    Real.tanh_zero, Fin.sum_univ_one]

/-- The `t = 0` call's forget-gate bias gradient is `1/16` when it is given the
`t = 1` call's previous-cell-state gradient, as the claimed chaining demands. -/
theorem exStep0_chained_dbf :
    (lstm_cell_backward exD0 ((lstm_cell_backward exD1 (0 : Mat 1 1) exC1).dc_prev)
      exC0).dbf 0 0 = 1 / 16 := by
  simp [lstm_cell_backward, rowSum, hprod, emap, tanhM, exC0, exC1, exD0, exD1, onesM, halfM,
    Real.tanh_zero, Fin.sum_univ_one]
  norm_num

/-- C1: the claim fails on the code.  In `lstm_backward`'s loop the carried
cell-state gradient `dc_prevt` is never reassigned, so on the two-step instance
both per-step `lstm_cell_backward` calls receive the initial all-zero
cell-state gradient — visible as the literal `0` arguments in the evaluated
result — even though the step-1 call returns the nonzero `dc_prev = 1/4` that,
by the claim, had to be passed to the step-0 call. -/
theorem lstm_backward_cell_state_gradient_unthreaded :
    lstm_backward [exD0, exD1] ([exC0, exC1], ([] : List (Mat 1 1))) =
      some (lstmCombineTwo (lstm_cell_backward exD1 (0 : Mat 1 1) exC1)
        (lstm_cell_backward exD0 (0 : Mat 1 1) exC0)) ∧
    (lstm_cell_backward exD1 (0 : Mat 1 1) exC1).dc_prev 0 0 = 1 / 4 ∧
    ((0 : Mat 1 1) 0 0 : ℝ) ≠ 1 / 4 :=
  ⟨lstm_backward_two_eval, exStep1_dc_prev, by norm_num⟩

/-- C6: the claim fails on the code for the LSTM driver.  On the two-step
instance the code's accumulated forget-gate bias gradient is `0`, while the sum
over the two steps of the per-step gradients computed with correctly chained
cell-state gradients (zero into the last step, the last step's `dc_prev` into
step 0) is `1/16`. -/
theorem lstm_param_grads_not_chained_sum :
    (lstm_backward [exD0, exD1] ([exC0, exC1], ([] : List (Mat 1 1)))).map
        (fun g => g.dbf 0 0) = some 0 ∧
    (lstm_cell_backward exD1 (0 : Mat 1 1) exC1).dbf 0 0 +
      (lstm_cell_backward exD0 ((lstm_cell_backward exD1 (0 : Mat 1 1) exC1).dc_prev)
        exC0).dbf 0 0 = 1 / 16 ∧
    (0 : ℝ) ≠ 1 / 16 := by
  refine ⟨?_, ?_, by norm_num⟩
  · rw [lstm_backward_two_eval]
    simp only [Option.map_some', lstmCombineTwo, Matrix.add_apply, Option.some_inj]
    rw [exStep1_dbf, exStep0_dbf]
    norm_num
  · rw [exStep1_dbf, exStep0_chained_dbf]
    norm_num

/-- C8: the claim fails on the code.  `lstm_backward` called with an upstream
gradient of time length 1 against a cached sequence of length 2 silently
completes on the prefix — only `exC0` is consulted, `exC1` is ignored — and
returns gradients instead of reporting a fatal shape error. -/
theorem lstm_backward_time_mismatch_completes :
    lstm_backward [exD1] ([exC0, exC1], ([] : List (Mat 1 1))) =
      some (lstmSingle (lstm_cell_backward exD1 (0 : Mat 1 1) exC0)) := rfl

/-- Witness for C4: the threading theorem applied at a concrete one-step input,
every hypothesis discharged there. -/
theorem rnn_backward_bptt_threading_witness :
    ([witD].length = 0 + 1) ∧
    rnnChain [witD] [witC] 0 = some [rnn_cell_backward (witD + 0) witC] ∧
    rnn_backward [witD] ([witC], ([] : List (Mat 1 1))) =
      some (rnnAggregate [rnn_cell_backward (witD + 0) witC]) :=
  ⟨rfl, rfl,
    (rnn_backward_bptt_threading [witD] [witC] [] 0
      [rnn_cell_backward (witD + 0) witC] rfl rfl).1⟩

/-- Witness for C7: the threading theorem applied at a concrete one-step input,
its bound hypothesis discharged there. -/
theorem seq_forward_state_threading_witness :
    0 < [witX].length ∧
    (rnn_forward [witX] witA0 witP).a[0]? = some (rnnStates witP witA0 [witX] (0 + 1)) :=
  ⟨Nat.one_pos,
    (seq_forward_state_threading [witX] witA0 witP exP 0 Nat.one_pos).1⟩

end RnnBuild
